import Mathlib

/-!
# Verification of the `my_ssg` static site generator (`src/app.py`)

This file shallowly embeds the parts of `app.py` that the specification's
claims are about, and proves or refutes each claim.

Modelling conventions:
* A text file is a `List String` of its lines.  Python's `f.readline()`
  returns the empty string at end of file; the header scan below mirrors
  that.  Python keeps the trailing newline on each line returned by
  `readline`; since the delimiter checks use `startswith` and the two
  external converters (YAML, cmark) are abstract here, the newline
  terminators carry no information and lines are modelled without them.
* Python's `str.startswith` / `str.endswith` are modelled on the
  character sequences of the strings (`startswith` / `endswith` below).
* The two external libraries the spec declares black boxes (YAML
  decoding and markdown-to-HTML conversion) are parameters: `yamlLoad`
  maps the buffered header lines to a key/value record, `toHtml` maps
  the remaining lines of the file to an HTML string.
* Python `dict`s (unique keys) are modelled as association lists;
  `dictGet`/`dictSet` mirror `d.get(k)` / `d[k] = v` (first-match
  lookup, in-place overwrite preserving position, append when absent).
* Errors (`SystemError`, `FileExistsError`) are modelled as
  `Except String` with the message strings of the source.
-/

/-- `isPrefixOfChars p s = true` iff the character list `p` is a prefix
of the character list `s`. -/
def isPrefixOfChars : List Char → List Char → Bool
  | [], _ => true
  | _ :: _, [] => false
  | p :: ps, c :: cs => if p = c then isPrefixOfChars ps cs else false

/-- Python `s.startswith(p)`. -/
def startswith (s p : String) : Bool := isPrefixOfChars p.toList s.toList

/-- Python `s.endswith(p)`. -/
def endswith (s p : String) : Bool :=
  isPrefixOfChars p.toList.reverse s.toList.reverse

/-- First-match lookup in an association list, mirroring Python
`d.get(k)` on a dict (keys of a Python dict are unique). -/
def dictGet : List (String × String) → String → Option String
  | [], _ => none
  | p :: rest, k => if p.1 = k then some p.2 else dictGet rest k

/-- Python `d.get(k, default)`. -/
def dictGetD (d : List (String × String)) (k v0 : String) : String :=
  (dictGet d k).getD v0

/-- Python `d[k] = v` on a dict: overwrite the existing entry in place
(keeping its position), or append a new entry at the end. -/
def dictSet : List (String × String) → String → String → List (String × String)
  | [], k, v => [(k, v)]
  | p :: rest, k, v => if p.1 = k then (k, v) :: rest else p :: dictSet rest k v

/-- The header-scanning loop of `parse_md_file` (`app.py` lines 19-27):

```
i = 0; lines = []; line = f.readline()
while not line.startswith('---'):
    if i > 50: raise SystemError('not reached to `---` after 50 lines')
    lines.append(line); line = f.readline(); i += 1
```

The counter `i` counts up and the loop raises at `i > 50`, so exactly 51
lines can be appended (at `i = 0 .. 50`) before the 52nd consecutive
non-delimiter line triggers the error.  Here the count-up counter is
replaced by the equivalent count-down `fuel` (initially 51): each
appended line consumes one unit, and the error fires when a
non-delimiter line is met with no fuel left.  A line starting with `---`
ends the scan at any point, exactly as the `while` condition does
(checked before the bound check).  At end of file `readline` returns the
empty string, which does not start with `---`, so the loop keeps
consuming fuel until the bound error fires — the first match arm mirrors
this. -/
def headerLoopAux : Nat → List String → List String →
    Except String (List String × List String)
  | fuel, acc, [] =>
    match fuel with
    | 0 => .error "not reached to `---` after 50 lines"
    | f + 1 => headerLoopAux f (acc ++ [""]) []
  | fuel, acc, line :: rest =>
    if startswith line "---" then .ok (acc, rest)
    else
      match fuel with
      | 0 => .error "not reached to `---` after 50 lines"
      | f + 1 => headerLoopAux f (acc ++ [line]) rest

/-- `parse_md_file` (`app.py` lines 14-33), parameterised by the two
external converters the spec treats as black boxes:

* the first line must start with `---`, else
  `SystemError('not started by `---`: ...')` (modelled without the
  interpolated path; an empty file reads as the empty first line);
* subsequent lines are buffered until a line starting with `---`
  (see `headerLoopAux` for the scan bound);
* the buffered lines are decoded by `yamlLoad` into the page record;
* unless `header_only`, the rest of the file is converted by `toHtml`
  and stored under the key `"content"` (`page['content'] = ...`). -/
def parse_md_file (yamlLoad : List String → List (String × String))
    (toHtml : List String → String)
    (file : List String) (header_only : Bool) :
    Except String (List (String × String)) :=
  let first := match file with | [] => "" | l :: _ => l
  let rest := match file with | [] => ([] : List String) | _ :: ls => ls
  if startswith first "---" then
    match headerLoopAux 51 [] rest with
    | .error e => .error e
    | .ok (lines, rest2) =>
      let page := yamlLoad lines
      if header_only then .ok page
      else .ok (dictSet page "content" (toHtml rest2))
  else .error "not started by `---`"

/-- `Folder.get_name` (`app.py` lines 53-56): match the name against the
regex `^\d+\.(?P<name>.+)` and return the `name` group on a match, the
input unchanged otherwise.  Since every character matched by `\d+` is a
digit and the following character must be the literal dot, backtracking
makes the regex equivalent to: take the maximal leading digit run; it
must be nonempty, be followed by `.`, and the remainder must be
nonempty.  (`\d` is modelled as the ASCII digits; every name in the
claims is ASCII.) -/
def get_name (name : String) : String :=
  let cs := name.toList
  let ds := cs.takeWhile (fun c => c.isDigit)
  match cs.drop ds.length with
  | '.' :: tail =>
      if 0 < ds.length ∧ 0 < tail.length then String.mk tail else name
  | _ => name

/-- `os.path.splitext(name)[0]` for a bare file name (no separators):
split at the last dot, unless every character before that dot is itself
a dot (so a leading-dot "hidden" name such as `.md` has no extension);
CPython implements exactly this rule in `genericpath._splitext`. -/
def splitextFst (s : String) : String :=
  let cs := s.toList
  match ((List.range cs.length).filter (fun i => cs.getD i ' ' = '.')).getLast? with
  | none => s
  | some i =>
      if (List.range i).all (fun j => cs.getD j ' ' = '.') then s
      else String.mk (cs.take i)

/-! ## Lemmas about the header scan -/

/-- Unfolding of `headerLoopAux` on a cons cell, valid for every fuel
value. -/
theorem headerLoopAux_cons (fuel : Nat) (acc : List String) (line : String)
    (rest : List String) :
    headerLoopAux fuel acc (line :: rest) =
      if startswith line "---" then .ok (acc, rest)
      else
        match fuel with
        | 0 => .error "not reached to `---` after 50 lines"
        | f + 1 => headerLoopAux f (acc ++ [line]) rest := by
  cases fuel <;> rfl

/-- If the header lines `hdr` (none starting with `---`) fit within the
remaining fuel, the scan consumes them and stops at the first line `d`
that starts with `---`, returning the buffered header and the rest. -/
theorem headerLoopAux_ok (hdr : List String) :
    ∀ (fuel : Nat) (acc : List String) (d : String) (rest : List String),
    (∀ l ∈ hdr, startswith l "---" = false) → startswith d "---" = true →
    hdr.length ≤ fuel →
    headerLoopAux fuel acc (hdr ++ d :: rest) = .ok (acc ++ hdr, rest) := by
  induction hdr with
  | nil =>
    intro fuel acc d rest _ hd _
    rw [List.nil_append, headerLoopAux_cons, if_pos hd, List.append_nil]
  | cons h t ih =>
    intro fuel acc d rest hnd hd hlen
    have hh : startswith h "---" = false := hnd h (List.mem_cons_self h t)
    match fuel with
    | 0 => exact absurd hlen (by simp)
    | f + 1 =>
      have ht : ∀ l ∈ t, startswith l "---" = false :=
        fun l hl => hnd l (List.mem_cons_of_mem h hl)
      have hlen2 : t.length ≤ f := by simpa using hlen
      rw [List.cons_append, headerLoopAux_cons, if_neg (by simp [hh])]
      show headerLoopAux f (acc ++ [h]) (t ++ d :: rest) = _
      rw [ih f (acc ++ [h]) d rest ht hd hlen2]
      simp

/-- If the next `fuel + 1` lines all fail to start with `---`, the scan
raises the bound error without looking past them. -/
theorem headerLoopAux_err (fuel : Nat) :
    ∀ (hdr acc rest : List String),
    hdr.length = fuel + 1 → (∀ l ∈ hdr, startswith l "---" = false) →
    headerLoopAux fuel acc (hdr ++ rest) =
      .error "not reached to `---` after 50 lines" := by
  induction fuel with
  | zero =>
    intro hdr acc rest hlen hnd
    match hdr, hlen with
    | [h], _ =>
      have hh : startswith h "---" = false := hnd h (List.mem_cons_self h [])
      rw [List.cons_append, List.nil_append, headerLoopAux_cons,
        if_neg (by simp [hh])]
  | succ f ih =>
    intro hdr acc rest hlen hnd
    match hdr with
    | h :: t =>
      have hh : startswith h "---" = false := hnd h (List.mem_cons_self h t)
      have ht : ∀ l ∈ t, startswith l "---" = false :=
        fun l hl => hnd l (List.mem_cons_of_mem h hl)
      rw [List.cons_append, headerLoopAux_cons, if_neg (by simp [hh])]
      show headerLoopAux f (acc ++ [h]) (t ++ rest) = _
      exact ih t (acc ++ [h]) rest (by simpa using hlen) ht

/-! ## Lemmas about dictionary update -/

theorem dictGet_dictSet_same (d : List (String × String)) (k v : String) :
    dictGet (dictSet d k v) k = some v := by
  induction d with
  | nil => simp [dictSet, dictGet]
  | cons p rest ih =>
    by_cases h : p.1 = k
    · simp [dictSet, dictGet, h]
    · simp [dictSet, dictGet, h, ih]

theorem dictGet_dictSet_other (d : List (String × String)) (k v m : String)
    (hm : ¬ m = k) : dictGet (dictSet d k v) m = dictGet d m := by
  have hk : ¬ (k = m) := fun h => hm h.symm
  induction d with
  | nil => simp [dictSet, dictGet, hk]
  | cons p rest ih =>
    by_cases h : p.1 = k
    · rw [show dictSet (p :: rest) k v = (k, v) :: rest by simp [dictSet, h]]
      simp [dictGet, hk, h]
    · rw [show dictSet (p :: rest) k v = p :: dictSet rest k v by
        simp [dictSet, h]]
      by_cases h2 : p.1 = m <;> simp [dictGet, h2, ih]

/-- Successful parse of a correctly delimited file, in terms of the
shape `first :: hdr ++ d :: rest` (opening line, header lines, closing
line, body): used by the claims below.  The bound `hdr.length ≤ 51` is
exactly the set of headers the source's scan loop accepts. -/
theorem parse_md_file_ok (yamlLoad : List String → List (String × String))
    (toHtml : List String → String) (first d : String)
    (hdr rest : List String)
    (h1 : startswith first "---" = true) (h2 : startswith d "---" = true)
    (h3 : ∀ l ∈ hdr, startswith l "---" = false) (h4 : hdr.length ≤ 51) :
    parse_md_file yamlLoad toHtml (first :: (hdr ++ d :: rest)) true =
      .ok (yamlLoad hdr) ∧
    parse_md_file yamlLoad toHtml (first :: (hdr ++ d :: rest)) false =
      .ok (dictSet (yamlLoad hdr) "content" (toHtml rest)) := by
  have hs := headerLoopAux_ok hdr 51 [] d rest h3 h2 h4
  constructor <;> simp [parse_md_file, h1, hs]

/-! ## C2: delimiter errors in `parse_md_file` -/

/-- C2 (counterexample): the claim says parsing fails whenever no
closing `---` line occurs within the first 50 lines after the opening
delimiter.  But a file whose 51 header lines are followed by the closing
`---` at the 52nd line parses successfully: the guard `if i > 50` only
fires on the 52nd consecutive non-delimiter line. -/
theorem c2_delimiter_bound_counterexample :
    (List.replicate 51 "a").all (fun l => !(startswith l "---")) = true ∧
    50 < (List.replicate 51 "a").length ∧
    parse_md_file (fun _ => []) (fun _ => "")
      ("---" :: (List.replicate 51 "a" ++ ["---", "b"])) true = .ok [] := by
  refine ⟨by decide, by decide, ?_⟩
  exact (parse_md_file_ok (fun _ => []) (fun _ => "") "---" "---"
    (List.replicate 51 "a") ["b"] (by decide) (by decide)
    (by decide) (by decide)).1

/-- C2 (amended): parsing fails with the `not started` error whenever
the file's first line does not start with `---`, and fails with the
bound error whenever, after the opening delimiter, no line starting with
`---` occurs within the first 52 lines — the scan stops at that 52-line
bound and never reads further (the lines past the bound are
arbitrary). -/
theorem c2_parse_errors_amended :
    (∀ (yamlLoad : List String → List (String × String))
       (toHtml : List String → String) (first : String)
       (rest : List String) (b : Bool),
       startswith first "---" = false →
       parse_md_file yamlLoad toHtml (first :: rest) b =
         .error "not started by `---`") ∧
    (∀ (yamlLoad : List String → List (String × String))
       (toHtml : List String → String) (hdr rest : List String) (b : Bool),
       hdr.length = 52 → (∀ l ∈ hdr, startswith l "---" = false) →
       parse_md_file yamlLoad toHtml ("---" :: (hdr ++ rest)) b =
         .error "not reached to `---` after 50 lines") := by
  constructor
  · intro yamlLoad toHtml first rest b hf
    simp [parse_md_file, hf]
  · intro yamlLoad toHtml hdr rest b hlen hnd
    have he := headerLoopAux_err 51 hdr [] rest (by omega) hnd
    simp [parse_md_file, he, show startswith "---" "---" = true by decide]

/-- C2 (witness): both error branches of `c2_parse_errors_amended` at
concrete inputs. -/
theorem c2_parse_errors_witness :
    parse_md_file (fun _ => []) (fun _ => "") ["xx"] true =
      .error "not started by `---`" ∧
    parse_md_file (fun _ => []) (fun _ => "")
      ("---" :: (List.replicate 52 "a" ++ ["---"])) true =
      .error "not reached to `---` after 50 lines" :=
  ⟨c2_parse_errors_amended.1 (fun _ => []) (fun _ => "") "xx" [] true
     (by decide),
   c2_parse_errors_amended.2 (fun _ => []) (fun _ => "")
     (List.replicate 52 "a") ["---"] true (by decide) (by decide)⟩

/-! ## C3: the record returned for a well-delimited file -/

/-- C3 (counterexample): the claim says the returned record contains
*every* key declared in the front matter with its decoded value.  But
`page['content'] = cmark.to_html(...)` overwrites a front-matter key
named `content`: for a file declaring `content: raw` (decoded by YAML to
the pair `("content", "raw")`), the full parse returns a record whose
`content` entry is the rendered body, not the declared value. -/
theorem c3_parse_record_counterexample :
    parse_md_file (fun _ => [("content", "raw")]) (fun _ => "HTML")
      ["---", "content: raw", "---", "body"] false =
      .ok [("content", "HTML")] ∧
    ¬ dictGet [("content", "HTML")] "content" = some "raw" := by
  constructor
  · exact (parse_md_file_ok (fun _ => [("content", "raw")]) (fun _ => "HTML")
      "---" "---" ["content: raw"] ["body"] (by decide) (by decide)
      (by decide) (by decide)).2
  · decide

/-- C3 (amended): for every file correctly delimited by two `---` lines
within 50 lines, `parse_md_file` with `header_only` returns exactly the
decoded front-matter record, and the full parse returns a record that
looks up every declared key *other than the reserved `content` key* to
its decoded value and looks up `content` to the markdown-to-HTML
conversion of exactly the lines after the second delimiter (a declared
`content` key is overwritten by the rendered body). -/
theorem c3_parse_record_amended
    (yamlLoad : List String → List (String × String))
    (toHtml : List String → String) (first d : String)
    (hdr rest : List String)
    (h1 : startswith first "---" = true) (h2 : startswith d "---" = true)
    (h3 : ∀ l ∈ hdr, startswith l "---" = false) (h4 : hdr.length ≤ 50) :
    parse_md_file yamlLoad toHtml (first :: (hdr ++ d :: rest)) true =
      .ok (yamlLoad hdr) ∧
    ∃ page,
      parse_md_file yamlLoad toHtml (first :: (hdr ++ d :: rest)) false =
        .ok page ∧
      (∀ k, ¬ k = "content" → dictGet page k = dictGet (yamlLoad hdr) k) ∧
      dictGet page "content" = some (toHtml rest) := by
  obtain ⟨hho, hfull⟩ := parse_md_file_ok yamlLoad toHtml first d hdr rest
    h1 h2 h3 (by omega)
  refine ⟨hho, dictSet (yamlLoad hdr) "content" (toHtml rest), hfull, ?_, ?_⟩
  · intro k hk
    exact dictGet_dictSet_other (yamlLoad hdr) "content" (toHtml rest) k hk
  · exact dictGet_dictSet_same (yamlLoad hdr) "content" (toHtml rest)

/-- C3 (witness): `c3_parse_record_amended` at a concrete one-key
file. -/
theorem c3_parse_record_witness :
    parse_md_file (fun _ => [("title", "T")]) (fun _ => "HTML")
      ["---", "title: T", "---", "body"] true = .ok [("title", "T")] :=
  (c3_parse_record_amended (fun _ => [("title", "T")]) (fun _ => "HTML")
    "---" "---" ["title: T"] ["body"] (by decide) (by decide)
    (by decide) (by decide)).1

/-! ## C10: the delimiter checks are prefix matches -/

/-- C10: both delimiter checks use `startswith('---')`: any first line
starting with `---` (such as `----` or `--- title`) opens the block, and
any subsequent line starting with `---` — trailing characters included —
closes the header exactly there, the buffered header being precisely the
lines strictly between the two. -/
theorem c10_prefix_delimiters
    (yamlLoad : List String → List (String × String))
    (toHtml : List String → String) (first d : String)
    (hdr rest : List String)
    (h1 : startswith first "---" = true) (h2 : startswith d "---" = true)
    (h3 : ∀ l ∈ hdr, startswith l "---" = false) (h4 : hdr.length ≤ 51) :
    parse_md_file yamlLoad toHtml (first :: (hdr ++ d :: rest)) true =
      .ok (yamlLoad hdr) :=
  (parse_md_file_ok yamlLoad toHtml first d hdr rest h1 h2 h3 h4).1

/-- C10 (witness): a `----` opening line and a `--- trailing` closing
line are accepted, and the header stops at the closing line. -/
theorem c10_prefix_delimiters_witness :
    parse_md_file (fun ls => ls.map (fun l => (l, l))) (fun _ => "")
      ["----", "k: v", "--- trailing", "body"] true =
      .ok [("k: v", "k: v")] :=
  c10_prefix_delimiters (fun ls => ls.map (fun l => (l, l))) (fun _ => "")
    "----" "--- trailing" ["k: v"] ["body"] (by decide) (by decide)
    (by decide) (by decide)

/-! ## C8: the name-derivation rule -/

/-- C8: `Folder.get_name` strips exactly one leading digits-plus-dot
prefix and nothing else: `"12.projects"` yields `"projects"`,
`"projects"` is unchanged, and `"003.a-b.c"` yields `"a-b.c"` (internal
dots are preserved). -/
theorem c8_get_name_examples :
    get_name "12.projects" = "projects" ∧
    get_name "projects" = "projects" ∧
    get_name "003.a-b.c" = "a-b.c" := by
  refine ⟨?_, ?_, ?_⟩ <;> decide

/-! ## The content tree scanner -/

/-- The kind of a directory entry as returned by `os.scandir`.  A
symlink is reported through `DirEntry.is_file` / `DirEntry.is_dir`
according to its target, because Python's `os.DirEntry.is_file()` and
`os.DirEntry.is_dir()` follow symbolic links by default
(`follow_symlinks=True`).  `other` covers entries that are neither a
file nor a directory after following links (e.g. broken symlinks,
sockets). -/
inductive DKind where
  | file
  | dir
  | symlinkToFile
  | symlinkToDir
  | other
deriving DecidableEq, Repr

/-- One `os.scandir` entry: a name and what it is. -/
structure DirEntry where
  name : String
  kind : DKind
deriving DecidableEq, Repr

/-- Python `entry.is_file()` (follows symlinks). -/
def DirEntry.is_file (e : DirEntry) : Bool :=
  e.kind = DKind.file ∨ e.kind = DKind.symlinkToFile

/-- Python `entry.is_dir()` (follows symlinks). -/
def DirEntry.is_dir (e : DirEntry) : Bool :=
  e.kind = DKind.dir ∨ e.kind = DKind.symlinkToDir

/-- The classification performed on one directory's entries by
`Folder._scan` (`app.py` lines 58-70): returns the `is_index` flag, the
recorded `(raw filename, derived name)` content-file pairs, and the
derived names of the subdirectories that are recursively scanned.

```
for x in os.scandir(self.path):
    if x.is_file() and x.name.endswith('.md'):
        if x.name == '_index.md':
            self.is_index = True
            self.index = parse_md_file(x.path, True)
        else:
            name = os.path.splitext(self.get_name(x.name))[0]
            self.files.append((x.name, name))
    elif x.is_dir() and not x.name.startswith('.'):
        ...recurse...
```

The loop appends in encounter order; the recursion below produces the
same lists.  The parse of `_index.md`'s header is covered by
`parse_md_file`; the final sorts of `files` and `folders` (lines 72-73)
reorder the lists but do not change what is recorded, which is all the
claims below are about, so they are not repeated here. -/
def scanClassify : List DirEntry → Bool × List (String × String) × List String
  | [] => (false, [], [])
  | x :: rest =>
    let r := scanClassify rest
    if x.is_file ∧ endswith x.name ".md" then
      if x.name = "_index.md" then (true, r.2.1, r.2.2)
      else (r.1, (x.name, splitextFst (get_name x.name)) :: r.2.1, r.2.2)
    else if x.is_dir ∧ ¬ startswith x.name "." then
      (r.1, r.2.1, get_name x.name :: r.2.2)
    else r

/-! ## C6: what the scanner records -/

/-- C6 (counterexample): the claim says dotfiles and symlinks are
silently ignored.  But the leading-dot check is applied only to
directories, and `is_file()` follows symlinks, so a regular dotfile
`.secret.md` and a symlink `x.md` resolving to a file are both recorded
as content files. -/
theorem c6_scan_counterexample :
    scanClassify
      [DirEntry.mk ".secret.md" DKind.file,
       DirEntry.mk "x.md" DKind.symlinkToFile] =
      (false, [(".secret.md", ".secret"), ("x.md", "x")], []) := by
  decide

/-- C6 (amended): for every list of scanned entries, exactly these are
recorded — an entry reported as a file (symlinks resolving to files
included) named exactly `_index.md` marks the folder as having an index;
every other entry reported as a file whose name ends in `.md` (dotfiles
included) is recorded as a content file under its extension-stripped,
prefix-stripped name; every entry reported as a directory (symlinks
resolving to directories included) whose name does not start with `.` is
recursively scanned under its prefix-stripped name; all remaining
entries (non-`.md` files, dot-directories, entries that are neither
files nor directories after following links) are ignored. -/
theorem c6_scan_amended (es : List DirEntry) :
    scanClassify es =
      (es.any (fun x => x.is_file && (endswith x.name ".md" &&
         (x.name = "_index.md" : Bool))),
       (es.filter (fun x => x.is_file && (endswith x.name ".md" &&
          !(x.name = "_index.md" : Bool)))).map
         (fun x => (x.name, splitextFst (get_name x.name))),
       (es.filter (fun x => !(x.is_file && endswith x.name ".md") &&
          (x.is_dir && !(startswith x.name ".")))).map
         (fun x => get_name x.name)) := by
  induction es with
  | nil => rfl
  | cons x rest ih =>
    by_cases h1 : x.is_file ∧ endswith x.name ".md"
    · have hf : x.is_file = true := h1.1
      have hm : endswith x.name ".md" = true := h1.2
      by_cases h2 : x.name = "_index.md"
      · simp only [scanClassify]
        rw [if_pos h1, if_pos h2]
        simp [ih, List.any_cons, List.filter_cons, hf, hm, h2,
          show endswith "_index.md" ".md" = true from by decide]
      · simp only [scanClassify]
        rw [if_pos h1, if_neg h2]
        simp [ih, List.any_cons, List.filter_cons, hf, hm, h2]
    · have h1b : (x.is_file && endswith x.name ".md") = false := by
        cases hxf : x.is_file with
        | false => simp
        | true =>
          cases hxm : endswith x.name ".md" with
          | false => simp [hxm]
          | true => exact absurd ⟨hxf, hxm⟩ h1
      by_cases h3 : x.is_dir ∧ ¬ startswith x.name "."
      · have hdd : x.is_dir = true := h3.1
        have hs : startswith x.name "." = false := by
          cases hsx : startswith x.name "." with
          | false => rfl
          | true => exact absurd hsx (by simpa using h3.2)
        simp only [scanClassify]
        rw [if_neg h1, if_pos h3]
        cases hxf : x.is_file with
        | false =>
          simp [ih, List.any_cons, List.filter_cons, hdd, hs, hxf]
        | true =>
          have hxm : endswith x.name ".md" = false := by
            simpa [hxf] using h1b
          simp [ih, List.any_cons, List.filter_cons, hdd, hs, hxf, hxm]
      · have h3b : (x.is_dir && !(startswith x.name ".")) = false := by
          cases hd : x.is_dir with
          | false => simp
          | true =>
            cases hsx : startswith x.name "." with
            | true => simp [hsx]
            | false => exact absurd ⟨hd, by simp [hsx]⟩ h3
        simp only [scanClassify]
        rw [if_neg h1, if_neg h3]
        cases hxf : x.is_file with
        | false =>
          simp [ih, List.any_cons, List.filter_cons, h3b, hxf]
        | true =>
          have hxm : endswith x.name ".md" = false := by
            simpa [hxf] using h1b
          simp [ih, List.any_cons, List.filter_cons, h3b, hxf, hxm]

/-! ## C4: template selection -/

/-- The template-name selection of `App._build` (`app.py` lines 107-119)
for one rendered page.  For the folder's index page (line 110):
`page.get('template', 'index.html')` — the folder's `index` mapping is
not consulted.  For a content file (lines 116-117):
`page.get('template', folder.index.get('files_template', 'page.html'))`;
a folder without an index has an empty `index` mapping, so the default
then is `page.html`. -/
def select_template (isIndexPage : Bool)
    (folderIndex page : List (String × String)) : String :=
  if isIndexPage then dictGetD page "template" "index.html"
  else dictGetD page "template" (dictGetD folderIndex "files_template" "page.html")

/-- C4: template selection precedence — a page's own `template` key
always wins; a content file without one falls back to the folder index's
`files_template`; the defaults are `index.html` for index pages and
`page.html` for content files; and the folder's `files_template` never
applies to the index page (its selection is the same whatever the folder
index mapping holds). -/
theorem c4_template_selection (page folderIndex : List (String × String)) :
    (∀ t, dictGet page "template" = some t →
       select_template true folderIndex page = t ∧
       select_template false folderIndex page = t) ∧
    (dictGet page "template" = none →
       ∀ ft, dictGet folderIndex "files_template" = some ft →
         select_template false folderIndex page = ft) ∧
    (dictGet page "template" = none →
       select_template true folderIndex page = "index.html") ∧
    (dictGet page "template" = none →
       dictGet folderIndex "files_template" = none →
       select_template false folderIndex page = "page.html") ∧
    (∀ folderIndex2, select_template true folderIndex page =
       select_template true folderIndex2 page) := by
  refine ⟨?_, ?_, ?_, ?_, ?_⟩
  · intro t ht
    constructor <;> simp [select_template, dictGetD, ht]
  · intro ht ft hft
    simp [select_template, dictGetD, ht, hft]
  · intro ht
    simp [select_template, dictGetD, ht]
  · intro ht hft
    simp [select_template, dictGetD, ht, hft]
  · intro folderIndex2
    simp [select_template]

/-- C4 (witness): `c4_template_selection` at concrete records — a page
override beats the folder's `files_template`; without an override the
folder's `files_template` applies to content files, while the index page
defaults to `index.html`; with neither, a content file defaults to
`page.html`. -/
theorem c4_template_selection_witness :
    select_template false [("files_template", "ft.html")]
      [("template", "custom.html")] = "custom.html" ∧
    select_template false [("files_template", "ft.html")] [] = "ft.html" ∧
    select_template true [("files_template", "ft.html")] [] = "index.html" ∧
    select_template false [] [] = "page.html" :=
  ⟨((c4_template_selection [("template", "custom.html")]
      [("files_template", "ft.html")]).1 "custom.html" (by decide)).2,
   (c4_template_selection [] [("files_template", "ft.html")]).2.1
     (by decide) "ft.html" (by decide),
   (c4_template_selection [] [("files_template", "ft.html")]).2.2.1
     (by decide),
   (c4_template_selection [] []).2.2.2.1 (by decide) (by decide)⟩

/-! ## The content tree and the render walk -/

/-- One node of the content tree built by `Folder.__init__` / `_scan`
(`app.py` lines 36-73): the directory path, the derived display name
(the root folder's name is the empty string), the index flag, the parsed
index front matter, the recorded `(raw filename, derived name)` pairs,
and the child folders.  The `parent` back-reference of the source is
never read by the build walk and is omitted. -/
inductive Folder where
  | mk (path : String) (name : String) (is_index : Bool)
      (index : List (String × String))
      (files : List (String × String))
      (folders : List Folder)

def Folder.name : Folder → String
  | .mk _ n _ _ _ _ => n

def Folder.is_index : Folder → Bool
  | .mk _ _ ii _ _ _ => ii

def Folder.index : Folder → List (String × String)
  | .mk _ _ _ idx _ _ => idx

def Folder.files : Folder → List (String × String)
  | .mk _ _ _ _ fs _ => fs

def Folder.folders : Folder → List Folder
  | .mk _ _ _ _ _ sub => sub

/-- `os.path.join(p, s)` on a directory path modelled as its list of
segments.  Joining the empty string appends only a path separator
(`os.path.join('public', '') == 'public/'`), which names the same
directory and the same files under it, so it is modelled as adding no
segment.  This matters for the root folder, whose `name` is `''`. -/
def pathJoin (p : List String) (s : String) : List String :=
  if s = "" then p else p ++ [s]

mutual

/-- The output files written by `App._build` (`app.py` lines 107-122),
as the list of their paths (each a segment list ending in
`index.html`); `App.mkdir` creates the directories on demand and
returns the joined path, and every `App._write` call writes
`<path>/index.html`:

* if the folder has an index: `path = mkdir(out_dir, folder.name)` and
  a write to `path/index.html`;
* for every recorded file `(raw, derived)`:
  `path = mkdir(out_dir, derived)` and a write to `path/index.html`;
* for every child folder `f`: recurse with
  `out_dir = os.path.join(out_dir, f.name)`.

The rendered bytes are irrelevant to the path claims and are not
modelled; the template chosen for each write is `select_template`. -/
def buildWrites : Folder → List String → List (List String)
  | .mk _ n ii _ fs sub, out =>
    (if ii then [pathJoin out n ++ ["index.html"]] else [])
    ++ fs.map (fun f => pathJoin out f.2 ++ ["index.html"])
    ++ buildWritesSub sub out

/-- The writes of the child-folder loop of `App._build` (lines 121-122):
each child is rendered into `os.path.join(out_dir, child.name)`. -/
def buildWritesSub : List Folder → List String → List (List String)
  | [], _ => []
  | f :: rest, out =>
    buildWrites f (pathJoin out f.name) ++ buildWritesSub rest out

end

/-- `out-dir-of-folder`: `Reach root out g o` holds when the recursion
of `App._build`, started at `root` with output directory `out`, reaches
the folder `g` with output directory `o` — that is, `o` is `out` joined
with the chain of derived folder names from `root` to `g`. -/
inductive Reach (root : Folder) (out : List String) :
    Folder → List String → Prop
  | refl : Reach root out root out
  | step {f : Folder} {o : List String} {g : Folder} :
      Reach root out f o → g ∈ f.folders → Reach root out g (pathJoin o g.name)

/-- The clean step of `App.build` (`app.py` lines 90-98) removes, when
the output root exists, every immediate entry except those named
`.git`, using `shutil.rmtree` on directories and `os.unlink` on
everything else. -/
inductive RemoveMode where
  | rmtree
  | unlink
deriving DecidableEq, Repr

/-- The removals performed by the clean step of `App.build`, in scandir
order: nothing when the output root does not exist; otherwise one
removal per non-`.git` entry, recursive for directories. -/
def cleanRemovals (publicExists : Bool) (entries : List DirEntry) :
    List (String × RemoveMode) :=
  if publicExists then
    entries.foldr (fun x acc =>
      if x.name = ".git" then acc
      else if x.is_dir then (x.name, RemoveMode.rmtree) :: acc
      else (x.name, RemoveMode.unlink) :: acc) []
  else []

/-- `App.build` (`app.py` lines 90-100): the clean step over the output
root's current entries, then the render walk from the content root into
the output root.  (The final static-copy step is modelled separately by
`copy_static_files` below.)  The pair returned is (removals performed,
output files written); the render walk does not depend on whether the
output root existed — `App.mkdir` creates every needed directory on
demand. -/
def build (publicExists : Bool) (publicEntries : List DirEntry)
    (root : Folder) (out : List String) :
    List (String × RemoveMode) × List (List String) :=
  (cleanRemovals publicExists publicEntries, buildWrites root out)

/-! ## C7: the clean step -/

/-- C7: if the output root exists, the clean step removes exactly the
immediate entries not named `.git` (directories recursively via
`rmtree`, other entries individually via `unlink`), leaving every
`.git` entry unchanged; if the output root does not exist, nothing is
removed and the build still performs the same render writes, creating
output directories on demand. -/
theorem c7_clean_step (es : List DirEntry) (root : Folder)
    (out : List String) :
    build false es root out = ([], buildWrites root out) ∧
    (build true es root out).2 = buildWrites root out ∧
    (build true es root out).1 =
      (es.filter (fun x => !(x.name = ".git" : Bool))).map
        (fun x => (x.name, if x.is_dir then RemoveMode.rmtree
                           else RemoveMode.unlink)) := by
  refine ⟨rfl, rfl, ?_⟩
  show cleanRemovals true es = _
  induction es with
  | nil => rfl
  | cons x rest ih =>
    by_cases hg : x.name = ".git"
    · simp [cleanRemovals, List.filter_cons, hg] at ih ⊢
      exact ih
    · cases hd : x.is_dir with
      | false =>
        simp [cleanRemovals, List.filter_cons, hg, hd] at ih ⊢
        exact ih
      | true =>
        simp [cleanRemovals, List.filter_cons, hg, hd] at ih ⊢
        exact ih

/-! ## C1: output paths of the render walk -/

/-- The writes `App._build` performs for the folder it is visiting
itself: the index page (when present) at
`pathJoin out folder.name ++ [index.html]` and each recorded file at
`pathJoin out derived ++ [index.html]`. -/
theorem buildWrites_local (g : Folder) (o : List String) :
    (g.is_index = true →
      pathJoin o g.name ++ ["index.html"] ∈ buildWrites g o) ∧
    (∀ fe ∈ g.files,
      pathJoin o fe.2 ++ ["index.html"] ∈ buildWrites g o) := by
  match g with
  | .mk p n ii idx fs sub =>
    constructor
    · intro hii
      show _ ∈ buildWrites (Folder.mk p n ii idx fs sub) o
      simp only [buildWrites, Folder.is_index] at hii ⊢
      rw [hii, if_pos rfl]
      exact List.mem_append.mpr (Or.inl (List.mem_append.mpr
        (Or.inl (List.mem_singleton.mpr rfl))))
    · intro fe hfe
      show _ ∈ buildWrites (Folder.mk p n ii idx fs sub) o
      simp only [buildWrites, Folder.files] at hfe ⊢
      have hmap : pathJoin o fe.2 ++ ["index.html"] ∈
          fs.map (fun f => pathJoin o f.2 ++ ["index.html"]) :=
        List.mem_map.mpr ⟨fe, hfe, rfl⟩
      exact List.mem_append.mpr (Or.inl (List.mem_append.mpr (Or.inr hmap)))

/-- A write of a child folder's subtree is a write of
`buildWritesSub`. -/
theorem buildWritesSub_mem (sub : List Folder) (out : List String)
    (g : Folder) (hg : g ∈ sub) (x : List String)
    (hx : x ∈ buildWrites g (pathJoin out g.name)) :
    x ∈ buildWritesSub sub out := by
  induction sub with
  | nil => cases hg
  | cons f rest ih =>
    rcases List.mem_cons.mp hg with h | h
    · subst h
      simp only [buildWritesSub, List.mem_append]
      exact Or.inl hx
    · simp only [buildWritesSub, List.mem_append]
      exact Or.inr (ih h)

/-- Every write of a reached folder's subtree is a write of the whole
walk. -/
theorem reach_writes_subset (root : Folder) (out : List String)
    (g : Folder) (o : List String) (hr : Reach root out g o) :
    ∀ x, x ∈ buildWrites g o → x ∈ buildWrites root out := by
  induction hr with
  | refl => exact fun x hx => hx
  | @step f o2 g2 _ hmem ih =>
    intro x hx
    apply ih
    match f with
    | .mk p n ii idx fs sub =>
      show x ∈ buildWrites (Folder.mk p n ii idx fs sub) o2
      simp only [buildWrites]
      exact List.mem_append.mpr (Or.inr (buildWritesSub_mem sub o2 g2 hmem x hx))

/-- A content tree for the counterexample: a root folder (derived name
`""`) containing one indexed subfolder `1.about` (derived name `about`)
with one content file `10.a.md` (derived name `a`). -/
def sub1 : Folder :=
  Folder.mk "content/1.about" "about" true [] [("10.a.md", "a")] []

/-- The root folder of the counterexample tree. -/
def root1 : Folder := Folder.mk "content" "" false [] [] [sub1]

/-- C1 (counterexample): the claim places the index page of every
indexed folder at `<out-dir-of-folder>/index.html`.  But `_build`
receives `out_dir` already extended with the folder's name (line 122)
and then joins the folder name again for the index write (line 111): the
indexed subfolder `about` renders its index to
`public/about/about/index.html`, and nothing is written to the claimed
`public/about/index.html`.  (Content-file paths match the claim.) -/
theorem c1_index_path_counterexample :
    sub1.is_index = true ∧
    buildWrites root1 ["public"] =
      [["public", "about", "about", "index.html"],
       ["public", "about", "a", "index.html"]] ∧
    ["public", "about", "index.html"] ∉ buildWrites root1 ["public"] := by
  have h : buildWrites root1 ["public"] =
      [["public", "about", "about", "index.html"],
       ["public", "about", "a", "index.html"]] := by
    simp [root1, sub1, buildWrites, buildWritesSub, pathJoin, Folder.name]
  refine ⟨rfl, h, ?_⟩
  rw [h]
  decide

/-- C1 (amended): let `o` be the output directory with which the walk
reaches a folder `g` (the output root joined with the chain of derived
folder names, `Reach`).  Then the walk writes `g`'s index page — when
`g` has one — to `pathJoin o g.name ++ [index.html]`, i.e. the folder's
derived name is joined *once more* onto its own output directory (for
the root folder, whose derived name is the empty string, this is
`<output-root>/index.html`); and it writes every content file
`(raw, derived)` of `g` to `pathJoin o derived ++ [index.html]`, as the
claim states. -/
theorem c1_output_paths_amended (root : Folder) (out : List String)
    (g : Folder) (o : List String) (hr : Reach root out g o) :
    (g.is_index = true →
      pathJoin o g.name ++ ["index.html"] ∈ buildWrites root out) ∧
    (∀ fe ∈ g.files,
      pathJoin o fe.2 ++ ["index.html"] ∈ buildWrites root out) := by
  obtain ⟨hidx, hfiles⟩ := buildWrites_local g o
  exact ⟨fun hii => reach_writes_subset root out g o hr _ (hidx hii),
    fun fe hfe => reach_writes_subset root out g o hr _ (hfiles fe hfe)⟩

/-- C1 (witness): `c1_output_paths_amended` applied to the concrete
tree `root1`, reaching the indexed subfolder `sub1` at output directory
`public/about`: its index page is written to
`public/about/about/index.html` and its content file to
`public/about/a/index.html`. -/
theorem c1_output_paths_witness :
    ["public", "about", "about", "index.html"] ∈
      buildWrites root1 ["public"] ∧
    ["public", "about", "a", "index.html"] ∈
      buildWrites root1 ["public"] := by
  have hmem : sub1 ∈ root1.folders := List.mem_singleton.mpr rfl
  have hr : Reach root1 ["public"] sub1 (pathJoin ["public"] sub1.name) :=
    Reach.step Reach.refl hmem
  obtain ⟨hidx, hfiles⟩ := c1_output_paths_amended root1 ["public"] sub1
    (pathJoin ["public"] sub1.name) hr
  constructor
  · have := hidx rfl
    simpa [sub1, pathJoin] using this
  · have := hfiles ("10.a.md", "a") (by simp [sub1, Folder.files])
    simpa [sub1, pathJoin] using this

/-! ## The static asset copier -/

/-- Which copy phase of `App._copy_static_files` produced an output
entry: the site-wide static directory (copied first) or the active
theme's static directory (copied second). -/
inductive Src where
  | site
  | theme
deriving DecidableEq, Repr

/-- One immediate entry of the output root after copying: its name,
whether it is a directory, and which phase put the current version
there. -/
structure OutEntry where
  name : String
  isDir : Bool
  origin : Src
deriving DecidableEq, Repr

/-- Whether (and as what) a name exists in the output root. -/
def lookupOut : List OutEntry → String → Option OutEntry
  | [], _ => none
  | e :: rest, n => if e.name = n then some e else lookupOut rest n

/-- Writing a file named `n` into the output root: `shutil.copy`
replaces an existing file of the same name in place, or creates a new
entry. -/
def setFile : List OutEntry → String → Src → List OutEntry
  | [], n, o => [OutEntry.mk n false o]
  | e :: rest, n, o =>
    if e.name = n then OutEntry.mk n false o :: rest
    else e :: setFile rest n o

/-- One iteration of the `copy` loop of `App._copy_static_files`
(`app.py` lines 145-151) on the scandir entry `x`:

* `x.is_file()`: `shutil.copy(x.path, dst)` — overwrites an existing
  file of the same name; if `dst` is an existing *directory*, Python
  copies the file inside that directory instead, leaving the output
  root's own listing unchanged (that corner is hit by no claim);
* `x.is_dir()`: `shutil.copytree(x.path, dst)` — requires that `dst`
  not exist at all, else it raises `FileExistsError`;
* anything else (neither file nor directory after following links) is
  skipped by the `if`/`elif`. -/
def copyOne (o : Src) (st : List OutEntry) (x : DirEntry) :
    Except String (List OutEntry) :=
  if x.is_file then
    match lookupOut st x.name with
    | some e => if e.isDir then .ok st else .ok (setFile st x.name o)
    | none => .ok (setFile st x.name o)
  else if x.is_dir then
    match lookupOut st x.name with
    | some _ => .error "FileExistsError"
    | none => .ok (st ++ [OutEntry.mk x.name true o])
  else .ok st

/-- The `copy(src)` loop of `App._copy_static_files`: copy each scandir
entry in order, stopping at the first error. -/
def copyDir (o : Src) : List DirEntry → List OutEntry →
    Except String (List OutEntry)
  | [], st => .ok st
  | x :: rest, st =>
    match copyOne o st x with
    | .error e => .error e
    | .ok st2 => copyDir o rest st2

/-- `App._copy_static_files` (`app.py` lines 144-159): copy the
site-wide static directory first (if it exists), then the active
theme's static directory (if it exists), both into the output root
`st`. -/
def copy_static_files (siteExists : Bool) (site : List DirEntry)
    (themeExists : Bool) (theme : List DirEntry) (st : List OutEntry) :
    Except String (List OutEntry) :=
  match (if siteExists then copyDir Src.site site st else .ok st) with
  | .error e => .error e
  | .ok s1 => if themeExists then copyDir Src.theme theme s1 else .ok s1

/-! ## Lemmas about the copier -/

theorem lookupOut_setFile_same (st : List OutEntry) (n : String) (o : Src) :
    lookupOut (setFile st n o) n = some (OutEntry.mk n false o) := by
  induction st with
  | nil => simp [setFile, lookupOut]
  | cons e rest ih =>
    by_cases h : e.name = n
    · simp [setFile, lookupOut, h]
    · simp [setFile, lookupOut, h, ih]

theorem lookupOut_setFile_other (st : List OutEntry) (n : String) (o : Src)
    (m : String) (hm : ¬ m = n) :
    lookupOut (setFile st n o) m = lookupOut st m := by
  have hn : ¬ n = m := fun h => hm h.symm
  induction st with
  | nil => simp [setFile, lookupOut, hn]
  | cons e rest ih =>
    by_cases h : e.name = n
    · rw [show setFile (e :: rest) n o = OutEntry.mk n false o :: rest by
        simp [setFile, h]]
      simp [lookupOut, hn, h]
    · rw [show setFile (e :: rest) n o = e :: setFile rest n o by
        simp [setFile, h]]
      by_cases h2 : e.name = m <;> simp [lookupOut, h2, ih]

theorem lookupOut_append_of_none (st : List OutEntry)
    (l : List OutEntry) (n : String) (h : lookupOut st n = none) :
    lookupOut (st ++ l) n = lookupOut l n := by
  induction st with
  | nil => rfl
  | cons e rest ih =>
    by_cases h2 : e.name = n
    · simp [lookupOut, h2] at h
    · simp only [lookupOut, h2, if_neg] at h ⊢
      simp [h2]
      exact ih h

theorem lookupOut_append_of_some (st : List OutEntry)
    (l : List OutEntry) (n : String) (e : OutEntry)
    (h : lookupOut st n = some e) : lookupOut (st ++ l) n = some e := by
  induction st with
  | nil => simp [lookupOut] at h
  | cons e2 rest ih =>
    by_cases h2 : e2.name = n
    · simp only [lookupOut, h2, if_pos] at h ⊢
      simpa using h
    · simp only [List.cons_append, lookupOut, h2, if_neg] at h ⊢
      simp [h2]
      exact ih h

/-- The only error `copyOne` can produce is `copytree`'s
`FileExistsError`. -/
theorem copyOne_error (o : Src) (st : List OutEntry) (x : DirEntry)
    (e : String) (h : copyOne o st x = .error e) : e = "FileExistsError" := by
  unfold copyOne at h
  cases hf : x.is_file with
  | true =>
    rw [hf] at h
    simp only [if_pos] at h
    cases hl : lookupOut st x.name with
    | some e2 =>
      rw [hl] at h
      by_cases hd : e2.isDir = true <;> simp [hd] at h
    | none => rw [hl] at h; simp at h
  | false =>
    rw [hf] at h
    simp only [Bool.false_eq_true, if_false] at h
    cases hd : x.is_dir with
    | true =>
      rw [hd] at h
      simp only [if_pos] at h
      cases hl : lookupOut st x.name with
      | some e2 => rw [hl] at h; simp at h; exact h.symm
      | none => rw [hl] at h; simp at h
    | false => rw [hd] at h; simp at h

/-- A successful `copyOne` of an entry named differently from `m` does
not change what the output root holds at `m`. -/
theorem copyOne_lookup_other (o : Src) (st : List OutEntry) (x : DirEntry)
    (st2 : List OutEntry) (m : String) (hm : ¬ x.name = m)
    (h : copyOne o st x = .ok st2) : lookupOut st2 m = lookupOut st m := by
  unfold copyOne at h
  cases hf : x.is_file with
  | true =>
    rw [hf] at h
    simp only [if_pos] at h
    cases hl : lookupOut st x.name with
    | some e2 =>
      rw [hl] at h
      by_cases hd : e2.isDir = true
      · simp [hd] at h
        rw [← h]
      · simp [hd] at h
        rw [← h, lookupOut_setFile_other st x.name o m (fun hh => hm hh.symm)]
    | none =>
      rw [hl] at h
      simp at h
      rw [← h, lookupOut_setFile_other st x.name o m (fun hh => hm hh.symm)]
  | false =>
    rw [hf] at h
    simp only [Bool.false_eq_true, if_false] at h
    cases hd : x.is_dir with
    | true =>
      rw [hd] at h
      simp only [if_pos] at h
      cases hl : lookupOut st x.name with
      | some e2 => rw [hl] at h; simp at h
      | none =>
        rw [hl] at h
        simp at h
        rw [← h]
        cases hs : lookupOut st m with
        | some e3 => exact lookupOut_append_of_some st _ m e3 hs
        | none =>
          rw [lookupOut_append_of_none st [OutEntry.mk x.name true o] m hs]
          simp [lookupOut, hm]
    | false =>
      rw [hd] at h
      simp at h
      rw [← h]

/-- A successful `copyOne` never removes a name from the output
root. -/
theorem copyOne_present (o : Src) (st : List OutEntry) (x : DirEntry)
    (st2 : List OutEntry) (n : String) (h : copyOne o st x = .ok st2)
    (hp : (lookupOut st n).isSome = true) :
    (lookupOut st2 n).isSome = true := by
  by_cases hm : x.name = n
  · unfold copyOne at h
    cases hf : x.is_file with
    | true =>
      rw [hf] at h
      simp only [if_pos] at h
      cases hl : lookupOut st x.name with
      | some e2 =>
        rw [hl] at h
        by_cases hd : e2.isDir = true
        · simp [hd] at h; rw [← h]; exact hp
        · simp [hd] at h
          rw [← h, hm, lookupOut_setFile_same]
          rfl
      | none =>
        rw [hl] at h
        simp at h
        rw [← h, hm, lookupOut_setFile_same]
        rfl
    | false =>
      rw [hf] at h
      simp only [Bool.false_eq_true, if_false] at h
      cases hd : x.is_dir with
      | true =>
        rw [hd] at h
        simp only [if_pos] at h
        cases hl : lookupOut st x.name with
        | some e2 => rw [hl] at h; simp at h
        | none =>
          rw [hm] at hl
          rw [hl] at hp
          simp at hp
      | false => rw [hd] at h; simp at h; rw [← h]; exact hp
  · rw [copyOne_lookup_other o st x st2 n hm h]
    exact hp

/-- A successful `copy` loop over entries named differently from `m`
does not change what the output root holds at `m`. -/
theorem copyDir_lookup_other (o : Src) :
    ∀ (entries : List DirEntry) (st out : List OutEntry) (m : String),
    (∀ x ∈ entries, ¬ x.name = m) → copyDir o entries st = .ok out →
    lookupOut out m = lookupOut st m := by
  intro entries
  induction entries with
  | nil =>
    intro st out m _ h
    simp [copyDir] at h
    rw [← h]
  | cons y rest ih =>
    intro st out m hm h
    unfold copyDir at h
    cases hco : copyOne o st y with
    | error e => rw [hco] at h; simp at h
    | ok st2 =>
      rw [hco] at h
      simp at h
      rw [ih st2 out m (fun x hx => hm x (List.mem_cons_of_mem y hx)) h,
        copyOne_lookup_other o st y st2 m (hm y (List.mem_cons_self y rest))
          hco]

/-- A successful `copy` loop never removes a name from the output
root. -/
theorem copyDir_present (o : Src) :
    ∀ (entries : List DirEntry) (st out : List OutEntry) (n : String),
    copyDir o entries st = .ok out → (lookupOut st n).isSome = true →
    (lookupOut out n).isSome = true := by
  intro entries
  induction entries with
  | nil =>
    intro st out n h hp
    simp [copyDir] at h
    rw [← h]
    exact hp
  | cons y rest ih =>
    intro st out n h hp
    unfold copyDir at h
    cases hco : copyOne o st y with
    | error e => rw [hco] at h; simp at h
    | ok st2 =>
      rw [hco] at h
      simp at h
      exact ih st2 out n h (copyOne_present o st y st2 n hco hp)

/-- A scandir entry is never reported as both a file and a directory:
after following links it resolves to at most one of the two. -/
theorem is_file_eq_false_of_is_dir (x : DirEntry) (h : x.is_dir = true) :
    x.is_file = false := by
  rcases x with ⟨nm, k⟩
  cases k <;> simp_all [DirEntry.is_file, DirEntry.is_dir]

/-- If a copy phase succeeds and its entries (with distinct names, as
`os.scandir` yields them) contain a file named `n`, and the output root
held no directory at `n`, then afterwards the output root holds at `n`
the file this phase copied. -/
theorem copyDir_file_wins (o : Src) (n : String) :
    ∀ (entries : List DirEntry) (st out : List OutEntry),
    (entries.map DirEntry.name).Nodup →
    (∃ x ∈ entries, x.name = n ∧ x.is_file = true) →
    (∀ e, lookupOut st n = some e → e.isDir = false) →
    copyDir o entries st = .ok out →
    lookupOut out n = some (OutEntry.mk n false o) := by
  intro entries
  induction entries with
  | nil =>
    intro st out _ hx _ _
    obtain ⟨x, hxm, _⟩ := hx
    cases hxm
  | cons y rest ih =>
    intro st out hnd hx hst h
    unfold copyDir at h
    cases hco : copyOne o st y with
    | error e => rw [hco] at h; simp at h
    | ok st2 =>
      rw [hco] at h
      simp at h
      obtain ⟨x, hxm, hxn, hxf⟩ := hx
      by_cases hy : y.name = n
      · rcases List.mem_cons.mp hxm with hqe | hxr
        · subst hqe
          have hst2 : st2 = setFile st x.name o := by
            unfold copyOne at hco
            rw [hxf] at hco
            simp only [if_pos] at hco
            cases hl : lookupOut st x.name with
            | some e2 =>
              rw [hl] at hco
              have he2 : e2.isDir = false := hst e2 (by rw [← hy]; exact hl)
              simp [he2] at hco
              exact hco.symm
            | none =>
              rw [hl] at hco
              simp at hco
              exact hco.symm
          have hrest : ∀ z ∈ rest, ¬ z.name = n := by
            intro z hz hzn
            have : x.name ∈ rest.map DirEntry.name :=
              List.mem_map.mpr ⟨z, hz, by rw [hzn, ← hy]⟩
            exact (List.nodup_cons.mp hnd).1 this
          rw [copyDir_lookup_other o rest st2 out n hrest h, hst2, hy,
            lookupOut_setFile_same]
        · exfalso
          have : y.name ∈ rest.map DirEntry.name :=
            List.mem_map.mpr ⟨x, hxr, by rw [hxn, hy]⟩
          exact (List.nodup_cons.mp hnd).1 this
      · have hxr : x ∈ rest := by
          rcases List.mem_cons.mp hxm with hqe | hxr
          · exfalso; exact hy (hqe ▸ hxn)
          · exact hxr
        have hlk := copyOne_lookup_other o st y st2 n hy hco
        exact ih st2 out (List.nodup_cons.mp hnd).2 ⟨x, hxr, hxn, hxf⟩
          (fun e he => hst e (by rw [← hlk]; exact he)) h

/-- If a copy phase succeeds and its entries contain a file or
directory named `n`, afterwards the output root holds something at
`n`. -/
theorem copyDir_adds (o : Src) (n : String) :
    ∀ (entries : List DirEntry) (st out : List OutEntry),
    (∃ x ∈ entries, x.name = n ∧ (x.is_file = true ∨ x.is_dir = true)) →
    copyDir o entries st = .ok out → (lookupOut out n).isSome = true := by
  intro entries
  induction entries with
  | nil =>
    intro st out hx _
    obtain ⟨x, hxm, _⟩ := hx
    cases hxm
  | cons y rest ih =>
    intro st out hx h
    unfold copyDir at h
    cases hco : copyOne o st y with
    | error e => rw [hco] at h; simp at h
    | ok st2 =>
      rw [hco] at h
      simp at h
      obtain ⟨x, hxm, hxn, hxk⟩ := hx
      rcases List.mem_cons.mp hxm with hqe | hxr
      · subst hqe
        have hp2 : (lookupOut st2 n).isSome = true := by
          unfold copyOne at hco
          rcases hxk with hxf | hxd
          · rw [hxf] at hco
            simp only [if_pos] at hco
            cases hl : lookupOut st x.name with
            | some e2 =>
              rw [hl] at hco
              by_cases hd2 : e2.isDir = true
              · simp [hd2] at hco
                rw [← hco, ← hxn, hl]
                rfl
              · simp [hd2] at hco
                rw [← hco, ← hxn, lookupOut_setFile_same]
                rfl
            | none =>
              rw [hl] at hco
              simp at hco
              rw [← hco, ← hxn, lookupOut_setFile_same]
              rfl
          · rw [is_file_eq_false_of_is_dir x hxd, hxd] at hco
            simp only [Bool.false_eq_true, if_false, if_pos] at hco
            cases hl : lookupOut st x.name with
            | some e2 => rw [hl] at hco; simp at hco
            | none =>
              rw [hl] at hco
              simp at hco
              rw [← hco, ← hxn,
                lookupOut_append_of_none st [OutEntry.mk x.name true o]
                  x.name hl]
              simp [lookupOut]
        exact copyDir_present o rest st2 out n h hp2
      · exact ih st2 out ⟨x, hxr, hxn, hxk⟩ h

/-- If the output root already holds something at `n` and the entries
to be copied contain a directory named `n`, the copy phase fails with
`copytree`'s `FileExistsError`. -/
theorem copyDir_dir_errors (o : Src) (n : String) :
    ∀ (entries : List DirEntry) (st : List OutEntry),
    (∃ x ∈ entries, x.name = n ∧ x.is_dir = true) →
    (lookupOut st n).isSome = true →
    copyDir o entries st = .error "FileExistsError" := by
  intro entries
  induction entries with
  | nil =>
    intro st hx _
    obtain ⟨x, hxm, _⟩ := hx
    cases hxm
  | cons y rest ih =>
    intro st hx hp
    obtain ⟨x, hxm, hxn, hxd⟩ := hx
    rcases List.mem_cons.mp hxm with hqe | hxr
    · subst hqe
      have hco : copyOne o st x = .error "FileExistsError" := by
        unfold copyOne
        rw [is_file_eq_false_of_is_dir x hxd, hxd]
        simp only [Bool.false_eq_true, if_false, if_pos]
        cases hl : lookupOut st x.name with
        | some e2 => rfl
        | none =>
          rw [← hxn, hl] at hp
          simp at hp
      unfold copyDir
      rw [hco]
    · unfold copyDir
      cases hco : copyOne o st y with
      | error e => rw [copyOne_error o st y e hco]
      | ok st2 =>
        exact ih st2 ⟨x, hxr, hxn, hxd⟩
          (copyOne_present o st y st2 n hco hp)

/-! ## C5: the theme's static files overwrite the site's -/

/-- C5: the site-wide static directory is copied first and the theme's
static directory second; for every name carried as a file by both
listings (scandir listings have distinct names; the output root holds
nothing at that name beforehand), a successful copy step leaves the
theme's version of the file in the output root — the later copy wins. -/
theorem c5_theme_overwrites (site theme : List DirEntry)
    (st final : List OutEntry) (n : String)
    (h1 : (site.map DirEntry.name).Nodup)
    (h2 : (theme.map DirEntry.name).Nodup)
    (h3 : ∃ x ∈ site, x.name = n ∧ x.is_file = true)
    (h4 : ∃ x ∈ theme, x.name = n ∧ x.is_file = true)
    (h5 : lookupOut st n = none)
    (h6 : copy_static_files true site true theme st = .ok final) :
    lookupOut final n = some (OutEntry.mk n false Src.theme) := by
  unfold copy_static_files at h6
  simp only [if_pos] at h6
  cases hs : copyDir Src.site site st with
  | error e => rw [hs] at h6; simp at h6
  | ok s1 =>
    rw [hs] at h6
    simp at h6
    have hsite : lookupOut s1 n = some (OutEntry.mk n false Src.site) :=
      copyDir_file_wins Src.site n site st s1 h1 h3
        (fun e he => by rw [h5] at he; cases he) hs
    have hnd1 : ∀ e, lookupOut s1 n = some e → e.isDir = false := by
      intro e he
      rw [hsite] at he
      cases he
      rfl
    exact copyDir_file_wins Src.theme n theme s1 final h2 h4 hnd1 h6

/-- C5 (witness): `c5_theme_overwrites` on concrete listings — with
`logo.png` a file in both static directories and an empty output root,
the copy succeeds and the output root ends up holding the theme's
`logo.png`. -/
theorem c5_theme_overwrites_witness :
    lookupOut [OutEntry.mk "logo.png" false Src.theme] "logo.png" =
      some (OutEntry.mk "logo.png" false Src.theme) :=
  c5_theme_overwrites [DirEntry.mk "logo.png" DKind.file]
    [DirEntry.mk "logo.png" DKind.file] []
    [OutEntry.mk "logo.png" false Src.theme] "logo.png"
    (by decide) (by decide)
    ⟨DirEntry.mk "logo.png" DKind.file, by decide, by decide, by decide⟩
    ⟨DirEntry.mk "logo.png" DKind.file, by decide, by decide, by decide⟩
    (by decide) (by rfl)

/-! ## C9: colliding static directories abort the copy -/

/-- C9: the later-wins overwrite only holds for regular files.  If the
site phase succeeds (so, in particular, a site directory named `n` now
exists in the output root) and the theme's static directory also
carries a directory named `n`, the whole static copy step fails with
`copytree`'s `FileExistsError` instead of merging or replacing. -/
theorem c9_copytree_collision (site theme : List DirEntry)
    (st s1 : List OutEntry) (n : String)
    (hsite : ∃ x ∈ site, x.name = n ∧ x.is_dir = true)
    (htheme : ∃ x ∈ theme, x.name = n ∧ x.is_dir = true)
    (hok : copyDir Src.site site st = .ok s1) :
    copy_static_files true site true theme st =
      .error "FileExistsError" := by
  obtain ⟨x, hxm, hxn, hxd⟩ := hsite
  have hp : (lookupOut s1 n).isSome = true :=
    copyDir_adds Src.site n site st s1 ⟨x, hxm, hxn, Or.inr hxd⟩ hok
  unfold copy_static_files
  simp only [if_pos]
  rw [hok]
  exact copyDir_dir_errors Src.theme n theme s1 htheme hp

/-- C9 (witness): `c9_copytree_collision` on concrete listings — a
directory `css` in both static directories makes the copy step fail. -/
theorem c9_copytree_collision_witness :
    copy_static_files true [DirEntry.mk "css" DKind.dir] true
      [DirEntry.mk "css" DKind.dir] [] = .error "FileExistsError" :=
  c9_copytree_collision [DirEntry.mk "css" DKind.dir]
    [DirEntry.mk "css" DKind.dir] [] [OutEntry.mk "css" true Src.site] "css"
    ⟨DirEntry.mk "css" DKind.dir, by decide, by decide, by decide⟩
    ⟨DirEntry.mk "css" DKind.dir, by decide, by decide, by decide⟩
    (by rfl)
